import Mathlib

/-!
Shallow embedding of the cmdstalk broker (package broker, dispatcher and
entry glue) in Lean 4. Server interactions (beanstalkd queries and
actions) are modelled by environments recording the outcome of each call
the code makes, and the broker/dispatcher code is translated function by
function. Durations are modelled in whole seconds.
-/

namespace Cmdstalk

/-- Errors from the beanstalkd client or the command runner, abstracted to
their message. -/
abbrev GoError := String

/-- Constant `TimeoutTries` from broker.go: number of timeouts a job must reach
before it is buried. -/
def TimeoutTries : Nat := 1

/-- Constant `ReleaseTries` from broker.go: number of releases a job must reach
before it is buried. -/
def ReleaseTries : Nat := 10

/-- Constant `ttrMargin` from broker.go, in seconds. -/
def ttrMarginSec : Nat := 1

/-- The `JobResult` record from broker.go. Stdout is a byte list. -/
structure JobResult where
  buried : Bool
  executed : Bool
  exitStatus : Int
  jobId : Nat
  stdout : List Nat
  timedOut : Bool
  error : Option GoError
deriving Repr, DecidableEq

/-- Zero value of `JobResult` apart from the given id, as built by the
bury paths in `Broker.Run` (`&JobResult{JobId: job.Id, Buried: true}`). -/
def buriedResult (id : Nat) : JobResult :=
  ⟨true, false, 0, id, [], false, none⟩

/-- The `JobResult` allocated at the top of `executeJob`
(`&JobResult{JobId: job.Id, Executed: true}`). -/
def initialResult (id : Nat) : JobResult :=
  ⟨false, true, 0, id, [], false, none⟩

/-- Server-side terminal actions the broker can issue on a job (touch is
tracked separately in the execution trace). Delay is in seconds. -/
inductive Action where
  | delete
  | release (delaySec : Nat)
  | bury
deriving Repr, DecidableEq

/-- Environment for `handleResult`: outcomes of the server calls it can
make. `releasesQ2` is the `job.Releases()` query issued inside
`handleResult` (distinct from the one in `Broker.Run`); `deleteErr` and
`releaseErr` are the results of `job.Delete()` / `job.Release(delay)`
(`none` = success). -/
structure HandleEnv where
  releasesQ2 : Except GoError Nat
  deleteErr : Option GoError
  releaseErr : Nat → Option GoError

/-- Function `Broker.handleResult` from broker.go. Returns the list of server
actions issued and the function's (named) error return value.

In the Go source the non-zero branch reads
`r, err := job.Releases()`: the `:=` declares a fresh `err` scoped to
that branch, shadowing the named return value, and `err = job.Release(delay)`
assigns that shadowed variable; the named return is never written in
this branch, so the function returns nil there. The model binds the
shadowed variable separately and leaves the returned error `none`. -/
def handleResult (env : HandleEnv) (result : JobResult) :
    List Action × Option GoError :=
  if result.timedOut then
    ([], none)
  else if result.exitStatus = 0 then
    ([Action.delete], env.deleteErr)
  else
    let r : Nat :=
      match env.releasesQ2 with
      | .ok n => n
      | .error _ => ReleaseTries
    let delay := r * r * r * r
    let errShadowed := env.releaseErr delay
    let _ := errShadowed
    ([Action.release delay], none)

end Cmdstalk

namespace Cmdstalk

/-- C1: for a completed (non-timed-out) execution, exit status 0 leads to
`delete()`, and a non-zero exit status leads to `release(r^4 seconds)`
where `r` is the releases count read just before the release (falling
back to `ReleaseTries = 10` when the query errors). -/
theorem handleResult_completed (env : HandleEnv) (result : JobResult)
    (hto : result.timedOut = false) :
    (result.exitStatus = 0 →
      handleResult env result = ([Action.delete], env.deleteErr)) ∧
    (result.exitStatus ≠ 0 →
      (∀ r, env.releasesQ2 = Except.ok r →
        (handleResult env result).1 = [Action.release (r ^ 4)]) ∧
      (∀ e, env.releasesQ2 = Except.error e →
        (handleResult env result).1 = [Action.release (ReleaseTries ^ 4)])) := by
  refine ⟨fun h0 => ?_, fun hne => ⟨fun r hr => ?_, fun e he => ?_⟩⟩
  · simp [handleResult, hto, h0]
  · simp [handleResult, hto, hne, hr]; ring
  · simp [handleResult, hto, hne, he]; ring

/-- Witness for `handleResult_completed` at concrete inputs. -/
theorem handleResult_completed_witness :
    (handleResult ⟨Except.ok 3, none, fun _ => none⟩
        ⟨false, true, 0, 5, [], false, none⟩ = ([Action.delete], none)) ∧
    (handleResult ⟨Except.ok 3, none, fun _ => none⟩
        ⟨false, true, 2, 5, [], false, none⟩).1 = [Action.release (3 ^ 4)] := by
  constructor
  · exact (handleResult_completed ⟨Except.ok 3, none, fun _ => none⟩
      ⟨false, true, 0, 5, [], false, none⟩ rfl).1 rfl
  · exact ((handleResult_completed ⟨Except.ok 3, none, fun _ => none⟩
      ⟨false, true, 2, 5, [], false, none⟩ rfl).2 (by decide)).1 3 rfl

/-- C5: a timed-out result leads to no server-side terminal action at all
in `handleResult` (and a nil error return). -/
theorem handleResult_timedOut (env : HandleEnv) (result : JobResult)
    (hto : result.timedOut = true) :
    handleResult env result = ([], none) := by
  simp [handleResult, hto]

/-- Witness for `handleResult_timedOut` at a concrete input. -/
theorem handleResult_timedOut_witness :
    handleResult ⟨Except.ok 3, some "delfail", fun _ => some "relfail"⟩
        ⟨false, true, 1, 5, [], true, none⟩ = ([], none) :=
  handleResult_timedOut _ _ rfl

/-- C7 counterexample: the final (10th) release of a job happens when the
job has 9 prior releases, and the code then releases with delay
`9^4 = 6561` seconds, not `10^4 = 10000` as the claim states. -/
theorem tenth_release_delay_counterexample :
    (handleResult ⟨Except.ok 9, none, fun _ => none⟩
        ⟨false, true, 1, 5, [], false, none⟩).1 = [Action.release 6561] ∧
    (6561 : Nat) ≠ 10 ^ 4 := by
  constructor
  · rfl
  · decide

/-- C7 amended: the final (10th) release (performed when the job has 9
prior releases) uses delay `9^4 = 6561` seconds (~1h49m21s); on the
query-success path the delay `r^4` never exceeds 6561 while the job is
releasable (`r < ReleaseTries`); the `10^4 = 10000` second delay occurs
exactly on the fallback path where the releases query errors; so no
release on the backoff path uses a delay larger than `10^4` seconds. -/
theorem release_delay_bounds (env : HandleEnv) (result : JobResult)
    (hto : result.timedOut = false) (hne : result.exitStatus ≠ 0)
    (hbound : ∀ r, env.releasesQ2 = Except.ok r → r < ReleaseTries) :
    (env.releasesQ2 = Except.ok 9 →
      (handleResult env result).1 = [Action.release 6561]) ∧
    (∀ r, env.releasesQ2 = Except.ok r →
      (handleResult env result).1 = [Action.release (r ^ 4)] ∧
        r ^ 4 ≤ 6561) ∧
    (∀ e, env.releasesQ2 = Except.error e →
      (handleResult env result).1 = [Action.release (10 ^ 4)]) ∧
    (∀ d, (handleResult env result).1 = [Action.release d] → d ≤ 10 ^ 4) := by
  refine ⟨fun h9 => ?_, fun r hr => ⟨?_, ?_⟩, fun e he => ?_, fun d hd => ?_⟩
  · simp [handleResult, hto, hne, h9]
  · simp [handleResult, hto, hne, hr]; ring
  · have hr9 : r ≤ 9 := Nat.lt_succ_iff.mp (hbound r hr)
    calc r ^ 4 ≤ 9 ^ 4 := Nat.pow_le_pow_left hr9 4
    _ = 6561 := by norm_num
  · simp [handleResult, hto, hne, he]; decide
  · cases hq : env.releasesQ2 with
    | ok r =>
        have hr9 : r ≤ 9 := Nat.lt_succ_iff.mp (hbound r hq)
        simp only [handleResult, hto, hne, hq, Bool.false_eq_true, if_false,
          if_neg hne] at hd
        have hle : r * r * r * r ≤ 10 ^ 4 := by
          calc r * r * r * r ≤ 9 * 9 * 9 * 9 :=
                Nat.mul_le_mul (Nat.mul_le_mul (Nat.mul_le_mul hr9 hr9) hr9) hr9
          _ ≤ 10 ^ 4 := by norm_num
        simp at hd
        omega
    | error e =>
        simp only [handleResult, hto, hne, hq, Bool.false_eq_true, if_false,
          if_neg hne] at hd
        simp [ReleaseTries] at hd
        omega

/-- Witness for `release_delay_bounds` at a concrete input. -/
theorem release_delay_bounds_witness :
    (handleResult ⟨Except.ok 9, none, fun _ => some "relfail"⟩
        ⟨false, true, 1, 5, [], false, none⟩).1 = [Action.release 6561] := by
  refine (release_delay_bounds ⟨Except.ok 9, none, fun _ => some "relfail"⟩
      ⟨false, true, 1, 5, [], false, none⟩ rfl (by decide) ?_).1 rfl
  intro r hr
  simp [ReleaseTries] at hr ⊢
  omega

end Cmdstalk

namespace Cmdstalk

/-! ## Execution model (`executeJob`)

The child process and the timers are modelled by an environment giving
the outcome of each interaction in program order: the `TimeLeft` query,
command construction, the spawn, the interleaving of touch-ticker ticks
and stdout chunks seen by the `stdoutReader` loop, and finally the wait
phase, described by the number of kill-timer firings that precede the
child's completion event. -/

/-- One event observed by the `stdoutReader` select loop: a touch-ticker
tick, or a chunk of child stdout. The loop ends when the stdout channel
closes (the end of the list). -/
inductive OutEvent where
  | tick
  | chunk (bytes : List Nat)
deriving Repr, DecidableEq

/-- The `stdoutReader` loop of `executeJob`: ticks issue `job.Touch()`
(counted), stdout chunks are appended to `result.Stdout`; the loop exits
when the stdout channel closes. Returns the updated result and the
number of touches issued. -/
def stdoutReader : List OutEvent → JobResult → Nat → JobResult × Nat
  | [], result, touches => (result, touches)
  | OutEvent.tick :: es, result, touches =>
      stdoutReader es result (touches + 1)
  | OutEvent.chunk bs :: es, result, touches =>
      stdoutReader es { result with stdout := result.stdout ++ bs } touches

/-- The completion event delivered on `cmd.WaitChan()`: exit status and
the wait-harness error (`wr.Err`). -/
structure WaitResult where
  status : Int
  werr : Option GoError
deriving Repr, DecidableEq

/-- Outcome of the `waitLoop` phase: the final result record, the
function's error variable, how many times `cmd.Terminate()` was called
and whether `timer.Stop()` was called. -/
structure WaitPhase where
  result : JobResult
  err : Option GoError
  terminates : Nat
  timerStopped : Bool
deriving Repr, DecidableEq

/-- The `waitLoop` of `executeJob`, driven by the number `n` of
kill-timer firings that occur before the completion event arrives. Each
timer firing calls `cmd.Terminate()` and sets `result.TimedOut = true`;
the completion event stops the timer and records the exit status. The
source guards the error assignment with `if wr.Err == nil`, so `err` is
overwritten only by a nil error (the no-op noted in the spec). -/
def waitLoop : Nat → WaitResult → JobResult → Option GoError → WaitPhase
  | 0, wr, result, err0 =>
      let err1 := if wr.werr = none then wr.werr else err0
      ⟨{ result with exitStatus := wr.status }, err1, 0, true⟩
  | n + 1, wr, result, err0 =>
      let rest := waitLoop n wr { result with timedOut := true } err0
      { rest with terminates := rest.terminates + 1 }

/-- Environment for one `executeJob` call. -/
structure ExecEnv where
  timeLeft : Except GoError Nat
  newCommand : Except GoError Unit
  startErr : Option GoError
  outEvents : List OutEvent
  timerFirings : Nat
  wait : WaitResult

/-- Side effects of one `executeJob` call: whether the child was spawned,
and the numbers of `Touch` and `Terminate` calls. -/
structure ExecTrace where
  spawned : Bool
  touches : Nat
  terminates : Nat
deriving Repr, DecidableEq

/-- Function `Broker.executeJob` from broker.go: build the result record, query
`TimeLeft`, construct the command, spawn it with the job body on stdin,
drain stdout (touching on ticks), then run the wait loop. Error returns
happen before the child is spawned; `result.Error` is never assigned. -/
def executeJob (env : ExecEnv) (jobId : Nat) :
    JobResult × Option GoError × ExecTrace :=
  let result := initialResult jobId
  match env.timeLeft with
  | .error e => (result, some e, ⟨false, 0, 0⟩)
  | .ok _ =>
    match env.newCommand with
    | .error e => (result, some e, ⟨false, 0, 0⟩)
    | .ok _ =>
      match env.startErr with
      | some e => (result, some e, ⟨false, 0, 0⟩)
      | none =>
        let (result1, touches) := stdoutReader env.outEvents result 0
        let wp := waitLoop env.timerFirings env.wait result1 none
        (wp.result, wp.err, ⟨true, touches, wp.terminates⟩)

end Cmdstalk

namespace Cmdstalk

/-- Helper: `waitLoop` always records the completion event's exit status,
terminates the child once per timer firing, stops the timer, sets
`TimedOut` exactly when at least one timer firing occurred, and changes
no other field of the result. -/
theorem waitLoop_spec (n : Nat) (wr : WaitResult) (result : JobResult)
    (err0 : Option GoError) :
    waitLoop n wr result err0 =
      ⟨{ result with exitStatus := wr.status,
                     timedOut := result.timedOut || decide (0 < n) },
       (if wr.werr = none then wr.werr else err0), n, true⟩ := by
  induction n generalizing result with
  | zero => simp [waitLoop]
  | succ k ih =>
      simp [waitLoop, ih]

/-- C4: in the wait phase, entered with `TimedOut` still false, if the
completion event arrives before any kill-timer firing then the exit
status is recorded, `TimedOut` is (remains) false and the timer is
stopped with no `Terminate` call; if the timer fires first (`0 < n`
firings before completion), `Terminate` is called once per firing,
`TimedOut` is set, and the race continues until the completion event is
recorded. -/
theorem waitLoop_race (wr : WaitResult) (result : JobResult)
    (err0 : Option GoError) (n : Nat) (hto : result.timedOut = false) :
    (waitLoop 0 wr result err0 =
      ⟨{ result with exitStatus := wr.status },
       (if wr.werr = none then wr.werr else err0), 0, true⟩) ∧
    ((waitLoop 0 wr result err0).result.timedOut = false) ∧
    (0 < n →
      (waitLoop n wr result err0).result.timedOut = true ∧
      (waitLoop n wr result err0).terminates = n ∧
      (waitLoop n wr result err0).result.exitStatus = wr.status ∧
      (waitLoop n wr result err0).timerStopped = true) := by
  refine ⟨by simp [waitLoop], by simp [waitLoop, hto], fun hn => ?_⟩
  rw [waitLoop_spec]
  simp [hto, hn]

/-- Witness for `waitLoop_race` at concrete inputs. -/
theorem waitLoop_race_witness :
    (waitLoop 0 ⟨7, none⟩ (initialResult 3) none =
      ⟨{ initialResult 3 with exitStatus := 7 }, none, 0, true⟩) ∧
    (waitLoop 2 ⟨7, none⟩ (initialResult 3) none).result.timedOut = true ∧
    (waitLoop 2 ⟨7, none⟩ (initialResult 3) none).terminates = 2 := by
  have h := waitLoop_race ⟨7, none⟩ (initialResult 3) none 2 rfl
  exact ⟨h.1, (h.2.2 (by decide)).1, (h.2.2 (by decide)).2.1⟩

end Cmdstalk

namespace Cmdstalk

/-! ## The reservation loop (`Broker.Run`)

One loop iteration on a successfully reserved job is `brokerIteration`;
the loop itself is `runLoop`, driven by a script of events, each giving
the state of the cancellation token at the top of the iteration and the
outcome of `MustReserveWithTimeout` (a timeout or a reserved job with its
environment). The brokers spawned by the dispatcher run with a nil ticks
channel, so ticks are not modelled. -/

/-- Environment for one reserved job: the stats queries made by
`Broker.Run` (`Timeouts`, `Releases`), the execution environment, and
the `handleResult` environment. -/
structure JobEnv where
  timeoutsQ : Except GoError Nat
  releasesQ : Except GoError Nat
  exec : ExecEnv
  handle : HandleEnv

/-- How one loop iteration ends: fall through to the next iteration, or
a `log.Panic` with the given error. -/
inductive StepOutcome where
  | next
  | panicked (e : GoError)
deriving Repr, DecidableEq

/-- Observable effects of one loop iteration on a reserved job. -/
structure IterResult where
  outcome : StepOutcome
  emitted : List JobResult
  calls : List Action
  spawned : Bool
  signalled : Bool
deriving Repr, DecidableEq

/-- The body of `Broker.Run` for one reserved job (broker.go lines
122-167): signal `jobReceived`, check `Timeouts` then `Releases` against
the bury thresholds (panicking if a query errors, burying and emitting
without executing when a threshold is met), otherwise execute the job
(panicking if `executeJob` returns an error), resolve it with
`handleResult` (panicking if that returns an error) and emit the result.
`hasResults` models whether the results channel is non-nil. -/
def brokerIteration (hasResults : Bool) (jobId : Nat) (env : JobEnv) :
    IterResult :=
  match env.timeoutsQ with
  | .error e => ⟨.panicked e, [], [], false, true⟩
  | .ok t =>
    if t ≥ TimeoutTries then
      ⟨.next, if hasResults then [buriedResult jobId] else [],
       [Action.bury], false, true⟩
    else
      match env.releasesQ with
      | .error e => ⟨.panicked e, [], [], false, true⟩
      | .ok r =>
        if r ≥ ReleaseTries then
          ⟨.next, if hasResults then [buriedResult jobId] else [],
           [Action.bury], false, true⟩
        else
          let (result, execErr, tr) := executeJob env.exec jobId
          match execErr with
          | some e => ⟨.panicked e, [], [], tr.spawned, true⟩
          | none =>
            let (hcalls, herr) := handleResult env.handle result
            match herr with
            | some e => ⟨.panicked e, [], hcalls, tr.spawned, true⟩
            | none =>
              ⟨.next, if hasResults then [result] else [], hcalls,
               tr.spawned, true⟩

/-- Outcome of `bs.MustReserveWithTimeout` for one loop iteration. -/
inductive LoopInput where
  | timedOutReserve
  | reserved (jobId : Nat) (env : JobEnv)

/-- One iteration of the reserve loop: the cancellation token's state as
observed by `isCancelled` at the top of the loop, and the reservation
outcome. -/
structure LoopEvent where
  cancelledNow : Bool
  input : LoopInput

/-- How a (finite prefix of a) run of the reserve loop ends. -/
inductive RunOutcome where
  | exited
  | panicked (e : GoError)
  | running
deriving Repr, DecidableEq

/-- Observable effects of a run of the reserve loop. `reservations`
counts calls to `MustReserveWithTimeout` (timeouts included). -/
structure RunTrace where
  outcome : RunOutcome
  reservations : Nat
  emitted : List JobResult
  calls : List Action
  spawns : Nat
deriving Repr

/-- The reserve loop of `Broker.Run` (with a nil ticks channel), run over
a finite script of events. Cancellation is checked first in every
iteration; a reservation timeout loops back; a reserved job is processed
to completion by `brokerIteration` with no further cancellation check. An
exhausted script leaves the loop `running`. -/
def runLoop (hasResults : Bool) : List LoopEvent → RunTrace
  | [] => ⟨.running, 0, [], [], 0⟩
  | ev :: rest =>
    if ev.cancelledNow then
      ⟨.exited, 0, [], [], 0⟩
    else
      match ev.input with
      | .timedOutReserve =>
          let t := runLoop hasResults rest
          { t with reservations := t.reservations + 1 }
      | .reserved jobId env =>
          let it := brokerIteration hasResults jobId env
          match it.outcome with
          | .panicked e =>
              ⟨.panicked e, 1, it.emitted, it.calls,
               if it.spawned then 1 else 0⟩
          | .next =>
              let t := runLoop hasResults rest
              ⟨t.outcome, t.reservations + 1, it.emitted ++ t.emitted,
               it.calls ++ t.calls,
               (if it.spawned then 1 else 0) + t.spawns⟩

/-- Bytes accumulated from a stdout event sequence. -/
def outChunks : List OutEvent → List Nat
  | [] => []
  | OutEvent.tick :: es => outChunks es
  | OutEvent.chunk bs :: es => bs ++ outChunks es

/-- Number of ticker firings in a stdout event sequence. -/
def outTicks : List OutEvent → Nat
  | [] => 0
  | OutEvent.tick :: es => outTicks es + 1
  | OutEvent.chunk _ :: es => outTicks es

/-- Lemma: `stdoutReader` appends exactly the stdout chunks, in order, touches
once per tick and changes nothing else. -/
theorem stdoutReader_spec (es : List OutEvent) (result : JobResult)
    (touches : Nat) :
    stdoutReader es result touches =
      ({ result with stdout := result.stdout ++ outChunks es },
       touches + outTicks es) := by
  induction es generalizing result touches with
  | nil => simp [stdoutReader, outChunks, outTicks]
  | cons e es ih =>
      cases e with
      | tick => simp [stdoutReader, outChunks, outTicks, ih]; omega
      | chunk bs => simp [stdoutReader, outChunks, outTicks, ih]

/-- Lemma: `executeJob` never assigns `result.Error`: the error field of the
returned result record is always nil, whatever the environment. -/
theorem executeJob_error_nil (env : ExecEnv) (id : Nat) :
    (executeJob env id).1.error = none := by
  unfold executeJob
  cases env.timeLeft with
  | error e => rfl
  | ok n =>
    cases env.newCommand with
    | error e => rfl
    | ok u =>
      cases env.startErr with
      | some e => rfl
      | none =>
        simp [stdoutReader_spec, waitLoop_spec, initialResult]

end Cmdstalk

namespace Cmdstalk

/-- C2: a reserved job whose `timeouts` stat has reached `TimeoutTries`
is buried, a `JobResult` with `Buried = true` and `Executed = false` is
emitted when a results channel exists, and the child is never spawned;
the same holds when `timeouts` is below the threshold but `releases` has
reached `ReleaseTries`. -/
theorem bury_on_threshold (b : Bool) (id : Nat) (env : JobEnv) :
    (∀ t, env.timeoutsQ = Except.ok t → TimeoutTries ≤ t →
      brokerIteration b id env =
        ⟨StepOutcome.next, if b then [buriedResult id] else [],
         [Action.bury], false, true⟩) ∧
    (∀ t r, env.timeoutsQ = Except.ok t → t < TimeoutTries →
      env.releasesQ = Except.ok r → ReleaseTries ≤ r →
      brokerIteration b id env =
        ⟨StepOutcome.next, if b then [buriedResult id] else [],
         [Action.bury], false, true⟩) := by
  constructor
  · intro t ht hge
    simp [brokerIteration, ht, hge]
  · intro t r ht hlt hr hge
    have hnot : ¬ t ≥ TimeoutTries := by omega
    simp [brokerIteration, ht, hnot, hr, hge]

/-- Witness for `bury_on_threshold`: a job with one timeout is buried
with the expected emitted record; a job with no timeouts but ten
releases likewise. -/
theorem bury_on_threshold_witness :
    brokerIteration true 4
        ⟨Except.ok 1, Except.ok 0,
         ⟨Except.ok 5, Except.ok (), none, [], 0, ⟨0, none⟩⟩,
         ⟨Except.ok 0, none, fun _ => none⟩⟩ =
      ⟨StepOutcome.next, [buriedResult 4], [Action.bury], false, true⟩ ∧
    brokerIteration true 4
        ⟨Except.ok 0, Except.ok 10,
         ⟨Except.ok 5, Except.ok (), none, [], 0, ⟨0, none⟩⟩,
         ⟨Except.ok 0, none, fun _ => none⟩⟩ =
      ⟨StepOutcome.next, [buriedResult 4], [Action.bury], false, true⟩ := by
  constructor
  · exact (bury_on_threshold true 4 _).1 1 rfl (by decide)
  · exact (bury_on_threshold true 4 _).2 0 10 rfl (by decide) rfl (by decide)

/-- A concrete reserved-job environment whose command construction fails
(policy checks pass, `TimeLeft` succeeds). -/
def jobEnvBadCmd : JobEnv :=
  ⟨Except.ok 0, Except.ok 0,
   ⟨Except.ok 5, Except.error "malformed shell command", none, [], 0,
    ⟨0, none⟩⟩,
   ⟨Except.ok 0, none, fun _ => none⟩⟩

/-- C6 counterexample: when command construction fails, the iteration
panics with the construction error and emits nothing, so the error does
not propagate as `JobResult.Error` on an emitted result and the broker
does not continue. -/
theorem construction_failure_counterexample :
    brokerIteration true 7 jobEnvBadCmd =
      ⟨StepOutcome.panicked "malformed shell command", [], [], false,
       true⟩ ∧
    StepOutcome.panicked "malformed shell command" ≠ StepOutcome.next := by
  exact ⟨rfl, by decide⟩

/-- C6 amended: when command construction fails or the child cannot be
spawned, `executeJob` returns the failure through its error return value
while the result record's `Error` field stays nil, no server action is
issued on the job (it is left to expire via TTR), and `Broker.Run`
panics on that error — terminating the broker — instead of continuing or
emitting a result. -/
theorem construction_failure_panics (b : Bool) (id : Nat) (env : JobEnv)
    (e : GoError) (t r n : Nat)
    (ht : env.timeoutsQ = Except.ok t) (ht2 : t < TimeoutTries)
    (hr : env.releasesQ = Except.ok r) (hr2 : r < ReleaseTries)
    (htl : env.exec.timeLeft = Except.ok n)
    (hc : env.exec.newCommand = Except.error e ∨
          (env.exec.newCommand = Except.ok () ∧
           env.exec.startErr = some e)) :
    executeJob env.exec id = (initialResult id, some e, ⟨false, 0, 0⟩) ∧
    (executeJob env.exec id).1.error = none ∧
    brokerIteration b id env =
      ⟨StepOutcome.panicked e, [], [], false, true⟩ := by
  have hnt : ¬ t ≥ TimeoutTries := by omega
  have hnr : ¬ r ≥ ReleaseTries := by omega
  have hE : executeJob env.exec id = (initialResult id, some e, ⟨false, 0, 0⟩) := by
    rcases hc with hnc | ⟨hnc, hs⟩
    · simp [executeJob, htl, hnc]
    · simp [executeJob, htl, hnc, hs]
  refine ⟨hE, by rw [hE]; rfl, ?_⟩
  simp [brokerIteration, ht, hnt, hr, hnr, hE]

/-- Witness for `construction_failure_panics` at a concrete input. -/
theorem construction_failure_panics_witness :
    executeJob jobEnvBadCmd.exec 7 =
      (initialResult 7, some "malformed shell command", ⟨false, 0, 0⟩) ∧
    brokerIteration true 7 jobEnvBadCmd =
      ⟨StepOutcome.panicked "malformed shell command", [], [], false,
       true⟩ := by
  have h := construction_failure_panics true 7 jobEnvBadCmd
    "malformed shell command" 0 0 5 rfl (by decide) rfl (by decide) rfl
    (Or.inl rfl)
  exact ⟨h.1, h.2.2⟩

/-- C8: the broker observes cancellation only at the top of the reserve
loop. A cancelled token at the loop top makes the broker exit with no
reservation attempted and no further effect; a reservation TIMEOUT loops
straight back to that cancellation check; and a job reserved before
cancellation fired is processed to completion by `brokerIteration`,
whose effects appear in full in the trace regardless of what the rest of
the script (including a later cancellation) holds. -/
theorem cancellation_at_loop_top (b : Bool) (rest : List LoopEvent) :
    (∀ inp, runLoop b (⟨true, inp⟩ :: rest) =
      ⟨RunOutcome.exited, 0, [], [], 0⟩) ∧
    (runLoop b (⟨false, LoopInput.timedOutReserve⟩ :: rest) =
      { runLoop b rest with
          reservations := (runLoop b rest).reservations + 1 }) ∧
    (∀ id env, (brokerIteration b id env).outcome = StepOutcome.next →
      runLoop b (⟨false, LoopInput.reserved id env⟩ :: rest) =
        ⟨(runLoop b rest).outcome, (runLoop b rest).reservations + 1,
         (brokerIteration b id env).emitted ++ (runLoop b rest).emitted,
         (brokerIteration b id env).calls ++ (runLoop b rest).calls,
         (if (brokerIteration b id env).spawned then 1 else 0) +
           (runLoop b rest).spawns⟩) := by
  refine ⟨fun inp => ?_, ?_, fun id env h => ?_⟩
  · simp [runLoop]
  · rfl
  · simp only [runLoop, Bool.false_eq_true, if_false]
    rw [h]

/-- Witness for `cancellation_at_loop_top`: a timeout iteration loops
back, and the cancellation observed at the next loop top stops the
broker with exactly the one reservation attempt in the trace. -/
theorem cancellation_at_loop_top_witness :
    runLoop true
        [⟨false, LoopInput.timedOutReserve⟩,
         ⟨true, LoopInput.timedOutReserve⟩] =
      ⟨RunOutcome.exited, 1, [], [], 0⟩ := by
  have h2 := (cancellation_at_loop_top true
    ([⟨true, LoopInput.timedOutReserve⟩] : List LoopEvent)).2.1
  have h1 := (cancellation_at_loop_top true ([] : List LoopEvent)).1
    LoopInput.timedOutReserve
  rw [h2, h1]

end Cmdstalk

namespace Cmdstalk

/-- C10: in `handleResult`'s non-zero-exit branch the
`r, err := job.Releases()` statement shadows the named error return, so
the branch always returns a nil error, even when `release(delay)` (or
the releases query) fails; the zero-exit branch returns the `delete()`
error unshadowed. Consequently, in `Broker.Run` a failed release leaves
the panic path unreachable (the iteration continues), while a failed
delete panics the broker. -/
theorem release_error_shadowed (henv : HandleEnv) (result : JobResult)
    (hto : result.timedOut = false) (hne : result.exitStatus ≠ 0)
    (b : Bool) (id : Nat) (env : JobEnv) (t r : Nat)
    (ht : env.timeoutsQ = Except.ok t) (ht2 : t < TimeoutTries)
    (hr : env.releasesQ = Except.ok r) (hr2 : r < ReleaseTries)
    (hexec : (executeJob env.exec id).2.1 = none)
    (htd : (executeJob env.exec id).1.timedOut = false) :
    (handleResult henv result).2 = none ∧
    (∀ result0 : JobResult, result0.timedOut = false →
      result0.exitStatus = 0 →
      (handleResult henv result0).2 = henv.deleteErr) ∧
    ((executeJob env.exec id).1.exitStatus ≠ 0 →
      (brokerIteration b id env).outcome = StepOutcome.next) ∧
    (∀ e, (executeJob env.exec id).1.exitStatus = 0 →
      env.handle.deleteErr = some e →
      (brokerIteration b id env).outcome = StepOutcome.panicked e) := by
  have hnt : ¬ t ≥ TimeoutTries := by omega
  have hnr : ¬ r ≥ ReleaseTries := by omega
  refine ⟨?_, ?_, ?_, ?_⟩
  · simp [handleResult, hto, hne]
  · intro result0 h0 h1; simp [handleResult, h0, h1]
  · intro hne2
    rcases hE : executeJob env.exec id with ⟨res, ee, tr⟩
    rw [hE] at hexec htd hne2
    simp only at hexec htd hne2
    subst hexec
    have hh : (handleResult env.handle res).2 = none := by
      simp [handleResult, htd, hne2]
    rcases hH : handleResult env.handle res with ⟨cs, he⟩
    rw [hH] at hh
    simp only at hh
    subst hh
    simp [brokerIteration, ht, hnt, hr, hnr, hE, hH]
  · intro e h0 hde
    rcases hE : executeJob env.exec id with ⟨res, ee, tr⟩
    rw [hE] at hexec htd h0
    simp only at hexec htd h0
    subst hexec
    have hh : handleResult env.handle res = ([Action.delete], some e) := by
      simp [handleResult, htd, h0, hde]
    simp [brokerIteration, ht, hnt, hr, hnr, hE, hh]

/-- A concrete reserved-job environment whose child exits 1 and whose
later `release` call fails. -/
def jobEnvFailedRelease : JobEnv :=
  ⟨Except.ok 0, Except.ok 0,
   ⟨Except.ok 5, Except.ok (), none, [], 0, ⟨1, none⟩⟩,
   ⟨Except.ok 3, some "delete failed", fun _ => some "release failed"⟩⟩

/-- Witness for `release_error_shadowed`: with a failing `release` call
the iteration still continues (`next`), so the panic path is not taken. -/
theorem release_error_shadowed_witness :
    (handleResult ⟨Except.ok 3, none, fun _ => some "release failed"⟩
        ⟨false, true, 1, 5, [], false, none⟩).2 = none ∧
    (brokerIteration true 5 jobEnvFailedRelease).outcome =
      StepOutcome.next := by
  have h := release_error_shadowed
    ⟨Except.ok 3, none, fun _ => some "release failed"⟩
    ⟨false, true, 1, 5, [], false, none⟩ rfl (by decide)
    true 5 jobEnvFailedRelease 0 0 rfl (by decide) rfl (by decide)
    (by rfl) (by rfl)
  exact ⟨h.1, h.2.2.1 (by decide)⟩

end Cmdstalk

namespace Cmdstalk

/-! ## The dispatcher (broker_dispatcher.go) -/

/-- The counter loop of `limittedCountGenerator`, processing `k` tokens
from the `eventHappened` channel with the running `ngenerated` value.
For each token: if `nlimit != 0 && ngenerated == nlimit`, call
`cancel()`; then increment `ngenerated`. Returns the number of tokens
drained and the number of `cancel()` calls. -/
def countLoop (nlimit : Nat) : Nat → Nat → Nat × Nat
  | _, 0 => (0, 0)
  | ngen, k + 1 =>
      let rest := countLoop nlimit (ngen + 1) k
      (rest.1 + 1, (if nlimit ≠ 0 ∧ ngen = nlimit then 1 else 0) + rest.2)

/-- Function `limittedCountGenerator` from broker_dispatcher.go, applied to a
stream of `tokens` reservation signals: the counter starts with
`ngenerated = 1`. Returns (tokens drained, `cancel()` calls). -/
def limittedCountGenerator (nlimit tokens : Nat) : Nat × Nat :=
  countLoop nlimit 1 tokens

/-- The counter loop drains every token. -/
theorem countLoop_drains (nlimit : Nat) (k : Nat) :
    ∀ ngen, (countLoop nlimit ngen k).1 = k := by
  induction k with
  | zero => intro ngen; rfl
  | succ n ih => intro ngen; simp [countLoop, ih]

/-- The counter loop fires `cancel` exactly once iff the limit value is
hit by the running counter, which takes the values
`ngen, ngen+1, …, ngen+k-1` over `k` tokens. -/
theorem countLoop_fires (nlimit : Nat) (hn : nlimit ≠ 0) (k : Nat) :
    ∀ ngen, (countLoop nlimit ngen k).2 =
      if ngen ≤ nlimit ∧ nlimit < ngen + k then 1 else 0 := by
  induction k with
  | zero =>
      intro ngen
      simp only [countLoop]
      split
      · omega
      · rfl
  | succ n ih =>
      intro ngen
      simp only [countLoop, ih (ngen + 1)]
      split_ifs <;> omega

/-- Like `countLoop_fires` but for a zero limit: `cancel` never fires. -/
theorem countLoop_zero (k : Nat) :
    ∀ ngen, (countLoop 0 ngen k).2 = 0 := by
  induction k with
  | zero => intro ngen; rfl
  | succ n ih => intro ngen; simp [countLoop, ih]

/-- C3: the counter task drains every reservation token; when
`maxJobs = 0` it never cancels; when `maxJobs > 0` it cancels exactly
once, while processing the `maxJobs`-th token — so the number of tokens
observed before cancellation-by-cap equals `maxJobs`. -/
theorem limittedCountGenerator_cap (m k : Nat) :
    (limittedCountGenerator m k).1 = k ∧
    (m = 0 → (limittedCountGenerator m k).2 = 0) ∧
    (0 < m →
      (limittedCountGenerator m k).2 = (if m ≤ k then 1 else 0) ∧
      (limittedCountGenerator m (m - 1)).2 = 0 ∧
      (limittedCountGenerator m m).2 = 1) := by
  refine ⟨countLoop_drains m k 1, fun h0 => ?_, fun hm => ⟨?_, ?_, ?_⟩⟩
  · rw [h0]; exact countLoop_zero k 1
  · rw [limittedCountGenerator, countLoop_fires m (by omega) k 1]
    split_ifs <;> omega
  · rw [limittedCountGenerator, countLoop_fires m (by omega) (m - 1) 1]
    split
    · omega
    · rfl
  · rw [limittedCountGenerator, countLoop_fires m (by omega) m 1]
    split
    · rfl
    · omega

/-- Witness for `limittedCountGenerator_cap`: a cap of 3 over 5 tokens
drains all 5 and cancels exactly once, not yet after 2 tokens, once
after 3. -/
theorem limittedCountGenerator_cap_witness :
    (limittedCountGenerator 3 5).1 = 5 ∧
    (limittedCountGenerator 3 5).2 = 1 ∧
    (limittedCountGenerator 3 2).2 = 0 ∧
    (limittedCountGenerator 3 3).2 = 1 ∧
    (limittedCountGenerator 0 5).2 = 0 := by
  have h35 := limittedCountGenerator_cap 3 5
  have h05 := limittedCountGenerator_cap 0 5
  refine ⟨h35.1, ?_, (h35.2.2 (by decide)).2.1, (h35.2.2 (by decide)).2.2,
    h05.2.1 rfl⟩
  have := (h35.2.2 (by decide)).1
  simpa using this

/-- Dispatcher state from broker_dispatcher.go: per-tube multiplicity,
tube set (the keys set to true in `tubeSet`), the (tube, slot) pairs of
the brokers spawned so far, and the `sync.WaitGroup` counter. -/
structure BrokerDispatcher where
  perTube : Nat
  tubeSet : List String
  spawned : List (String × Nat)
  wgCount : Nat
deriving Repr

/-- Constructor `NewBrokerDispatcher`: empty tube set, no brokers yet. -/
def NewBrokerDispatcher (perTube : Nat) : BrokerDispatcher :=
  ⟨perTube, [], [], 0⟩

/-- Setting `tubeSet[tube] = true` on a map modelled as a key list. -/
def tubeSetAdd (ts : List String) (tube : String) : List String :=
  if tube ∈ ts then ts else ts ++ [tube]

/-- Function `runBroker`: `wg.Add(1)` and start one broker goroutine for the
(tube, slot) pair. -/
def runBroker (bd : BrokerDispatcher) (tube : String) (slot : Nat) :
    BrokerDispatcher :=
  { bd with wgCount := bd.wgCount + 1,
            spawned := bd.spawned ++ [(tube, slot)] }

/-- Function `RunTube`: mark the tube in the tube set and spawn `perTube` brokers
for it, one per slot index `0 .. perTube-1`. -/
def RunTube (bd : BrokerDispatcher) (tube : String) : BrokerDispatcher :=
  let bd1 := { bd with tubeSet := tubeSetAdd bd.tubeSet tube }
  (List.range bd1.perTube).foldl (fun s i => runBroker s tube i) bd1

/-- Function `RunTubes`: `RunTube` on each tube in order. -/
def RunTubes (bd : BrokerDispatcher) (tubes : List String) :
    BrokerDispatcher :=
  tubes.foldl RunTube bd

/-- Function `wg.Wait()` returns exactly when the WaitGroup counter — incremented
once per spawned broker, decremented once per broker exit — has reached
zero. -/
def waitReturns (spawnedCount exitedCount : Nat) : Bool :=
  spawnedCount - exitedCount == 0

/-- Effect of the spawn loop in `RunTube` from an arbitrary state. -/
theorem foldl_runBroker (tube : String) (l : List Nat)
    (bd : BrokerDispatcher) :
    l.foldl (fun s i => runBroker s tube i) bd =
      { bd with wgCount := bd.wgCount + l.length,
                spawned := bd.spawned ++ l.map (fun i => (tube, i)) } := by
  induction l generalizing bd with
  | nil => simp
  | cons a l ih =>
      rw [List.foldl_cons, ih]
      simp [runBroker, List.append_assoc]
      omega

/-- Effect of `RunTube` on the dispatcher state. -/
theorem RunTube_spec (bd : BrokerDispatcher) (tube : String) :
    RunTube bd tube =
      { bd with tubeSet := tubeSetAdd bd.tubeSet tube,
                wgCount := bd.wgCount + bd.perTube,
                spawned := bd.spawned ++
                  (List.range bd.perTube).map (fun i => (tube, i)) } := by
  simp [RunTube, foldl_runBroker]

/-- Effect of `RunTubes` on the dispatcher state. -/
theorem RunTubes_spec (tubes : List String) (bd : BrokerDispatcher) :
    RunTubes bd tubes =
      { bd with tubeSet := tubes.foldl tubeSetAdd bd.tubeSet,
                wgCount := bd.wgCount + bd.perTube * tubes.length,
                spawned := bd.spawned ++ tubes.flatMap
                  (fun t => (List.range bd.perTube).map (fun i => (t, i))) } := by
  induction tubes generalizing bd with
  | nil => simp [RunTubes]
  | cons t ts ih =>
      show RunTubes (RunTube bd t) ts = _
      rw [ih, RunTube_spec]
      simp [List.append_assoc, Nat.mul_succ]
      omega

/-- Length of the spawned-broker list produced for a tube list. -/
theorem flatMap_slots_length (k : Nat) (ts : List String) :
    (ts.flatMap (fun t => (List.range k).map (fun i => (t, i)))).length =
      k * ts.length := by
  induction ts with
  | nil => simp
  | cons t ts ih =>
      simp [ih, Nat.mul_succ]
      ring

/-- Membership in a fold of `tubeSetAdd`. -/
theorem mem_foldl_tubeSetAdd (tubes : List String) (init : List String)
    (t : String) :
    t ∈ tubes.foldl tubeSetAdd init ↔ t ∈ init ∨ t ∈ tubes := by
  induction tubes generalizing init with
  | nil => simp
  | cons a ts ih =>
      simp only [List.foldl_cons, ih, tubeSetAdd]
      split_ifs with h
      · constructor
        · rintro (h1 | h1)
          · exact Or.inl h1
          · exact Or.inr (List.mem_cons_of_mem a h1)
        · rintro (h1 | h1)
          · exact Or.inl h1
          · rcases List.mem_cons.mp h1 with h2 | h2
            · exact Or.inl (h2 ▸ h)
            · exact Or.inr h2
      · simp only [List.mem_append, List.mem_singleton, List.mem_cons]
        tauto

/-- C9: from a fresh dispatcher with multiplicity `k`, running `t`
distinct tubes spawns exactly one broker per (tube, slot index) pair
with slots `0 .. k-1` — `k · t` brokers in total, matching the WaitGroup
counter — inserts every tube into the tube set, and `Wait()` returns
exactly when all spawned brokers have exited. -/
theorem RunTubes_Wait (k : Nat) (tubes : List String)
    (_hnd : tubes.Nodup) :
    (RunTubes (NewBrokerDispatcher k) tubes).spawned =
      tubes.flatMap (fun t => (List.range k).map (fun i => (t, i))) ∧
    (RunTubes (NewBrokerDispatcher k) tubes).spawned.length =
      k * tubes.length ∧
    (∀ t ∈ tubes, t ∈ (RunTubes (NewBrokerDispatcher k) tubes).tubeSet) ∧
    (RunTubes (NewBrokerDispatcher k) tubes).wgCount = k * tubes.length ∧
    (∀ exitedCount ≤ k * tubes.length,
      (waitReturns (RunTubes (NewBrokerDispatcher k) tubes).wgCount
          exitedCount = true ↔ exitedCount = k * tubes.length)) := by
  have hsp : (RunTubes (NewBrokerDispatcher k) tubes).spawned =
      tubes.flatMap (fun t => (List.range k).map (fun i => (t, i))) := by
    rw [RunTubes_spec]; simp [NewBrokerDispatcher]
  have hwg : (RunTubes (NewBrokerDispatcher k) tubes).wgCount =
      k * tubes.length := by
    rw [RunTubes_spec]; simp [NewBrokerDispatcher]
  refine ⟨hsp, ?_, ?_, hwg, ?_⟩
  · rw [hsp]; exact flatMap_slots_length k tubes
  · intro t ht
    rw [RunTubes_spec]
    exact (mem_foldl_tubeSetAdd tubes [] t).mpr (Or.inr ht)
  · intro e he
    rw [hwg]
    simp only [waitReturns, beq_iff_eq]
    generalize hK : k * tubes.length = K at he ⊢
    omega

/-- Witness for `RunTubes_Wait`: two tubes at multiplicity two give the
four expected (tube, slot) brokers; `Wait` does not return with three of
the four exited, and returns with all four exited. -/
theorem RunTubes_Wait_witness :
    (RunTubes (NewBrokerDispatcher 2) ["a", "b"]).spawned =
      [("a", 0), ("a", 1), ("b", 0), ("b", 1)] ∧
    (RunTubes (NewBrokerDispatcher 2) ["a", "b"]).spawned.length = 2 * 2 ∧
    "a" ∈ (RunTubes (NewBrokerDispatcher 2) ["a", "b"]).tubeSet ∧
    (waitReturns (RunTubes (NewBrokerDispatcher 2) ["a", "b"]).wgCount 3 =
        true ↔ (3 : Nat) = 2 * 2) ∧
    (waitReturns (RunTubes (NewBrokerDispatcher 2) ["a", "b"]).wgCount 4 =
        true ↔ (4 : Nat) = 2 * 2) := by
  have h := RunTubes_Wait 2 ["a", "b"] (by decide)
  refine ⟨?_, h.2.1, h.2.2.1 "a" (by decide),
    h.2.2.2.2 3 (by norm_num), h.2.2.2.2 4 (by norm_num)⟩
  rw [h.1]
  rfl

end Cmdstalk
